import Mathlib

/-
Verification of the oae-release-tools release scripts.

The development shallowly embeds the JavaScript sources:
  * the core utilities (logging, exec, gitDescribe, gitVersion),
  * lib/release/util.js (validateRelease, validateTargetVersion,
    bumpPackageJsonVersion, _getCurrentBranchName, _hasTag),
  * the packaging module (checksumPackage),
  * the upload module (validateUpload, upload, _upload, _filename).

Strings are represented as `List Char`.  Shelling out to external tools is
modelled by supplying each command's `CmdResult` (exit code and stdout) as an
explicit environment; `exec`'s hard process-exit on a non-zero exit code is
modelled with `Except Failure`.  JavaScript-specific semantics that the code
relies on (split, trim, parseInt, truthiness of numbers/strings, first-match
string replace as performed by the shelljs `sed` of that era) are embedded
faithfully below.
-/

set_option maxHeartbeats 1000000

/-- The character-list representation of a string literal. -/
def chars (s : String) : List Char := s.data

/-- The whitespace characters relevant to this code base, as trimmed by
JavaScript `String.prototype.trim`. -/
def isJsWs (c : Char) : Bool := c == ' ' || c == '\t' || c == '\n' || c == '\r'

/-- Decimal digit test. -/
def isDigitChar (c : Char) : Bool := decide ('0' ≤ c) && decide (c ≤ '9')

/-- Numeric value of a digit character. -/
def digitVal (c : Char) : Nat := c.toNat - 48

/-- Value of a string of decimal digits. -/
def digitsVal (l : List Char) : Nat := l.foldl (fun a c => 10 * a + digitVal c) 0

/-- Canonical decimal rendering of a natural number (the way JavaScript
renders an integral number with `%s`). -/
def natToDec (n : Nat) : List Char :=
  if h : n < 10 then [Char.ofNat (48 + n)]
  else natToDec (n / 10) ++ [Char.ofNat (48 + n % 10)]
decreasing_by exact Nat.div_lt_self (by omega) (by omega)

/-- Decimal rendering of a JavaScript integer. -/
def intToDec (i : Int) : List Char :=
  match i with
  | Int.ofNat n => natToDec n
  | Int.negSucc m => '-' :: natToDec (m + 1)

/-- JavaScript `a || b` for an optional number `a` (absent and `0` are falsy). -/
def jsOr (a : Option Nat) (b : Nat) : Nat :=
  match a with
  | some (n + 1) => n + 1
  | _ => b

/-- JavaScript `String.prototype.trim` (restricted to the whitespace characters
of `isJsWs`). -/
def jsTrim (l : List Char) : List Char :=
  ((l.dropWhile isJsWs).reverse.dropWhile isJsWs).reverse

/-- JavaScript `String.prototype.split` on a single-character separator:
splits at every occurrence of the separator; the result is never empty. -/
def jsSplit (sep : Char) : List Char → List (List Char)
  | [] => [[]]
  | c :: rest =>
    if c = sep then [] :: jsSplit sep rest
    else
      match jsSplit sep rest with
      | [] => [[c]]
      | t :: ts => (c :: t) :: ts

/-- `Array.prototype.join` with a single-character separator. -/
def joinWith (sep : Char) : List (List Char) → List Char
  | [] => []
  | [t] => t
  | t :: ts => t ++ sep :: joinWith sep ts

/-- JavaScript `parseInt(x, 10)` applied to an optional string (`none` models
`undefined`, whose parse is `NaN`; a `NaN` result is modelled as `none`). -/
def jsParseInt (o : Option (List Char)) : Option Int :=
  match o with
  | none => none
  | some s =>
    let t := s.dropWhile isJsWs
    match t with
    | [] => none
    | c :: rest =>
      if c = '-' then (parseDigitsPrefix rest).map (fun n => -(n : Int))
      else if c = '+' then (parseDigitsPrefix rest).map (fun n => (n : Int))
      else (parseDigitsPrefix (c :: rest)).map (fun n => (n : Int))
where
  /-- Leading-digit prefix of a string; `none` when there is none (`NaN`). -/
  parseDigitsPrefix (l : List Char) : Option Nat :=
    let ds := l.takeWhile isDigitChar
    if ds.isEmpty then none else some (digitsVal ds)

/-- JavaScript truthiness of an optional string (absent and empty are falsy). -/
def truthyStr (o : Option (List Char)) : Bool :=
  match o with
  | none => false
  | some l => !l.isEmpty

/-- Result of running an external command: its exit code and stdout. -/
structure CmdResult where
  code : Nat
  output : List Char
deriving DecidableEq, Repr

/-- A fatal failure: the process exit code and the diagnostic logged through
`logFail` just before exiting. -/
structure Failure where
  exitCode : Nat
  msg : List Char
deriving DecidableEq, Repr

/-- The suffix that `exec` appends to its failure diagnostic:
`util.format(' (\x60%s\x60 === %s)', cmd, exec.code)`. -/
def execFailSuffix (cmd : List Char) (code : Nat) : List Char :=
  chars (" (`") ++ cmd ++ chars ("` === ") ++ natToDec code ++ chars (")")

/-- Embedding of `CoreUtil.exec(cmd, errMsg, errCode)`: on exit code zero the
command's output is returned; otherwise the process exits with
`errCode || exec.code` after logging `errMsg` plus the command/exit-code
suffix.  The behaviour of the shelled-out command is supplied as `res`. -/
def execM (cmd : List Char) (res : CmdResult) (errMsg : List Char)
    (errCode : Option Nat) : Except Failure (List Char) :=
  if res.code = 0 then Except.ok res.output
  else Except.error ⟨jsOr errCode res.code, errMsg ++ execFailSuffix cmd res.code⟩

/-- The record produced by `gitDescribe`: tag, commit distance and abbreviated
hash.  `commits` is `none` when `parseInt` produced `NaN` (including the
`undefined` token of a tag-only describe output); `hash` is `none` when the
third token was absent. -/
structure Describe where
  tag : List Char
  commits : Option Int
  hash : Option (List Char)
deriving DecidableEq, Repr

/-- The parsing part of `gitDescribe`, applied to the raw output of
`git describe --always --tag`: trim, split on `-`, take the first token as the
tag, `parseInt` of the second as the commit distance, the third as the hash,
and strip the leading `g` disambiguation character from a truthy hash. -/
def gitDescribeParse (raw : List Char) : Describe :=
  let parts := jsSplit '-' (jsTrim raw)
  let tag := parts.headD []
  let commits := jsParseInt ((parts.drop 1).head?)
  let hashTok := (parts.drop 2).head?
  let hash :=
    if truthyStr hashTok then hashTok.map (List.drop 1) else hashTok
  ⟨tag, commits, hash⟩

/-- Embedding of `CoreUtil.gitDescribe(fromTag, errCode)` given the raw output
`raw` of the describe command: parse, then exit with `errCode || 1` when a
truthy `fromTag` differs from the parsed tag. -/
def gitDescribe (fromTag : Option (List Char)) (raw : List Char)
    (errCode : Option Nat) : Except Nat Describe :=
  let d := gitDescribeParse raw
  let mismatch :=
    match fromTag with
    | none => false
    | some ft => !ft.isEmpty && ft ≠ d.tag
  if mismatch then Except.error (jsOr errCode 1) else Except.ok d

/-- Embedding of `CoreUtil.gitVersion(fromTag, errCode)`: render the describe
record back into a version string, appending `-commits` when `commits` is
truthy (a number other than `0` and `NaN`) and `-hash` when `hash` is truthy
(a present, non-empty string). -/
def gitVersion (fromTag : Option (List Char)) (raw : List Char)
    (errCode : Option Nat) : Except Nat (List Char) :=
  (gitDescribe fromTag raw errCode).map fun d =>
    let v := d.tag
    let v :=
      match d.commits with
      | some n => if n ≠ 0 then v ++ '-' :: intToDec n else v
      | none => v
    match d.hash with
    | some h => if !h.isEmpty then v ++ '-' :: h else v
    | none => v

/-- A semver prerelease identifier: numeric identifiers are stored as numbers
(as node-semver does when it maps `/^[0-9]+$/` identifiers through `+id`). -/
inductive PreId where
  | numId (n : Nat)
  | alphaId (s : List Char)
deriving DecidableEq, Repr

/-- A parsed semver version, per the node-semver strict grammar. -/
structure SemVer where
  major : Nat
  minor : Nat
  patch : Nat
  pre : List PreId
  build : List (List Char)
deriving DecidableEq, Repr

/-- Characters allowed in prerelease/build identifiers: `[0-9A-Za-z-]`. -/
def isIdChar (c : Char) : Bool :=
  isDigitChar c || (decide ('a' ≤ c) && decide (c ≤ 'z')) ||
    (decide ('A' ≤ c) && decide (c ≤ 'Z')) || c == '-'

/-- Parse a numeric identifier `0|[1-9][0-9]*` (no leading zeros), returning
the value and the remaining input. -/
def parseNum : List Char → Option (Nat × List Char)
  | [] => none
  | c :: rest =>
    if c = '0' then some (0, rest)
    else if isDigitChar c then
      let ds := (c :: rest).takeWhile isDigitChar
      some (digitsVal ds, (c :: rest).drop ds.length)
    else none

/-- Parse one prerelease identifier: a maximal run of identifier characters;
an all-digit run is a numeric identifier and must carry no leading zero. -/
def parsePreId (l : List Char) : Option (PreId × List Char) :=
  let tok := l.takeWhile isIdChar
  if tok.isEmpty then none
  else
    let rest := l.drop tok.length
    if tok.all isDigitChar then
      match tok with
      | '0' :: _ :: _ => none
      | _ => some (PreId.numId (digitsVal tok), rest)
    else some (PreId.alphaId tok, rest)

/-- Parse one build identifier: a maximal nonempty run of identifier
characters (leading zeros are allowed here). -/
def parseBuildId (l : List Char) : Option (List Char × List Char) :=
  let tok := l.takeWhile isIdChar
  if tok.isEmpty then none else some (tok, l.drop tok.length)

/-- Parse a nonempty dot-separated list of identifiers (fuelled recursion; the
fuel is instantiated with more than the input length, which always suffices
because each identifier consumes at least one character). -/
def parseDotList {α : Type} (pid : List Char → Option (α × List Char)) :
    Nat → List Char → Option (List α × List Char)
  | 0, _ => none
  | fuel + 1, l => do
    let (x, rest) ← pid l
    match rest with
    | '.' :: rest' =>
      (parseDotList pid fuel rest').map fun p => (x :: p.1, p.2)
    | _ => some ([x], rest)

/-- Expect a specific leading character. -/
def expectChar (c : Char) : List Char → Option (List Char)
  | [] => none
  | c' :: rest => if c' = c then some rest else none

/-- Embedding of the node-semver strict grammar: an optional leading `v`,
three dot-separated numeric identifiers, an optional `-`-introduced
prerelease list and an optional `+`-introduced build list, anchored at both
ends.  `semver.valid` is truthiness of this parse. -/
def semverParse (s0 : List Char) : Option SemVer := do
  let s := match s0 with
    | 'v' :: r => r
    | r => r
  let (major, s) ← parseNum s
  let s ← expectChar '.' s
  let (minor, s) ← parseNum s
  let s ← expectChar '.' s
  let (patch, s) ← parseNum s
  let (pre, s) ← match s with
    | '-' :: r => parseDotList parsePreId (r.length + 1) r
    | r => pure (([] : List PreId), r)
  let (build, s) ← match s with
    | '+' :: r => parseDotList parseBuildId (r.length + 1) r
    | r => pure (([] : List (List Char)), r)
  if s.isEmpty then pure ⟨major, minor, patch, pre, build⟩ else none

/-- `semver.valid` as a Boolean. -/
def semverValid (s : List Char) : Bool := (semverParse s).isSome

/-- JavaScript string comparison (`<`/`>`): lexicographic on code units. -/
def cmpCharList : List Char → List Char → Ordering
  | [], [] => Ordering.eq
  | [], _ :: _ => Ordering.lt
  | _ :: _, [] => Ordering.gt
  | a :: as, b :: bs =>
    match compare a.toNat b.toNat with
    | Ordering.eq => cmpCharList as bs
    | o => o

/-- node-semver `compareIdentifiers`: numeric identifiers compare numerically,
a numeric identifier is below any alphanumeric one, and alphanumeric
identifiers compare as JavaScript strings. -/
def cmpPreId : PreId → PreId → Ordering
  | PreId.numId m, PreId.numId n => compare m n
  | PreId.numId _, PreId.alphaId _ => Ordering.lt
  | PreId.alphaId _, PreId.numId _ => Ordering.gt
  | PreId.alphaId a, PreId.alphaId b => cmpCharList a b

/-- The pairwise loop of node-semver `comparePre`: the list that runs out
first is smaller. -/
def cmpPreLoop : List PreId → List PreId → Ordering
  | [], [] => Ordering.eq
  | [], _ :: _ => Ordering.lt
  | _ :: _, [] => Ordering.gt
  | x :: xs, y :: ys =>
    match cmpPreId x y with
    | Ordering.eq => cmpPreLoop xs ys
    | o => o

/-- node-semver `comparePre`: a version with a prerelease sorts below the same
version without one; two prerelease lists compare pairwise. -/
def cmpPre (a b : List PreId) : Ordering :=
  match a, b with
  | _ :: _, [] => Ordering.lt
  | [], _ :: _ => Ordering.gt
  | [], [] => Ordering.eq
  | _ :: _, _ :: _ => cmpPreLoop a b

/-- node-semver `compare`: major, minor, patch numerically, then prerelease.
Build metadata is ignored. -/
def semverCompare (x y : SemVer) : Ordering :=
  (compare x.major y.major).then
    ((compare x.minor y.minor).then
      ((compare x.patch y.patch).then (cmpPre x.pre y.pre)))

/-- `semver.gt` on two parsed versions. -/
def semverGt (x y : SemVer) : Bool := semverCompare x y == Ordering.gt

/-- Locate the first occurrence of `pat` in a string, returning the parts
before and after it (JavaScript `String.prototype.indexOf` semantics; the
empty pattern matches at position 0). -/
def findSplit (pat : List Char) : List Char → Option (List Char × List Char)
  | [] => if pat.isPrefixOf ([] : List Char) then some ([], []) else none
  | c :: rest =>
    if pat.isPrefixOf (c :: rest) then some ([], (c :: rest).drop pat.length)
    else (findSplit pat rest).map fun p => (c :: p.1, p.2)

/-- JavaScript `String.prototype.replace` with a plain-string pattern, as used
by the shelljs `sed` of this era: replace the first occurrence only; return
the string unchanged when the pattern does not occur. -/
def replaceFirst (s pat repl : List Char) : List Char :=
  match findSplit pat s with
  | none => s
  | some (a, b) => a ++ repl ++ b

/-- Substring containment (JavaScript `indexOf(x) !== -1`). -/
def containsStr (s pat : List Char) : Bool := (findSplit pat s).isSome

/-- Whether `pat` occurs in `s` at position `i`. -/
def matchAt (s pat : List Char) (i : Nat) : Bool := pat.isPrefixOf (s.drop i)

/-- Number of positions at which `pat` occurs in `s`. -/
def occCount (s pat : List Char) : Nat :=
  (List.range (s.length + 1)).countP (fun i => matchAt s pat i)

/-- Outcome of the external commands run by `validateRelease` and
`_getCurrentBranchName`, supplied as an explicit environment. -/
structure RepoEnv where
  statusRes : CmdResult
  diffFilesRes : CmdResult
  diffIndexRes : CmdResult
  symbolicRefRes : CmdResult
  fetchRes : CmdResult
  diffRemoteRes : CmdResult
deriving DecidableEq, Repr

/-- The diagnostic of `validateRelease` when no branch name resolves. -/
def mustBeOnBranchMsg : List Char :=
  chars ("You must be on a branch so the release can be pushed to the remote git repository")

/-- The `errMsg` of the `git symbolic-ref HEAD` exec call. -/
def branchDetermineErrMsg : List Char := chars ("Error determining current branch")

/-- The `errMsg` of the `git diff-files --quiet` exec call. -/
def unstagedErrMsg : List Char :=
  chars ("It appears you may have unstaged changes in your repository")

/-- The `errMsg` of the `git diff-index --quiet --cached HEAD` exec call. -/
def uncommittedErrMsg : List Char :=
  chars ("It appears you may have uncommitted changes in your repository")

/-- Embedding of `_getCurrentBranchName(errCode)`: run
`git symbolic-ref HEAD`, trim, return `none` for an empty result, and
otherwise the last `/`-separated component. -/
def _getCurrentBranchName (env : RepoEnv) (errCode : Option Nat) :
    Except Failure (Option (List Char)) :=
  let ec := jsOr errCode 1
  (execM (chars ("git symbolic-ref HEAD")) env.symbolicRefRes
      branchDetermineErrMsg (some ec)).map fun out =>
    let branch := jsTrim out
    if branch.isEmpty then none
    else some ((jsSplit '/' branch).getLastD [])

/-- Embedding of `validateRelease(remoteName, errCode)`: refresh the index,
check for unstaged and uncommitted changes, resolve the branch name, fetch the
remote and compare the local branch against it, exiting on the first failing
step. -/
def validateRelease (remoteName : List Char) (env : RepoEnv)
    (errCode : Option Nat) : Except Failure Unit := do
  let ec := jsOr errCode 1
  let _ ← execM (chars ("git status")) env.statusRes
    (chars ("Error refreshing git cache with a git status")) (some ec)
  let _ ← execM (chars ("git diff-files --quiet")) env.diffFilesRes
    unstagedErrMsg (some ec)
  let _ ← execM (chars ("git diff-index --quiet --cached HEAD")) env.diffIndexRes
    uncommittedErrMsg (some ec)
  let branchName? ← _getCurrentBranchName env (some ec)
  match branchName? with
  | none => Except.error ⟨ec, mustBeOnBranchMsg⟩
  | some branchName => do
    let _ ← execM (chars ("git fetch ") ++ remoteName) env.fetchRes
      (chars ("Failed to fetch the remote repository \"") ++ remoteName ++ chars ("\""))
      (some ec)
    let _ ← execM (chars ("git diff --quiet ") ++ remoteName ++ '/' :: branchName)
      env.diffRemoteRes
      (chars ("It appears the local copy of branch \"") ++ branchName ++
        chars ("\" is not synchronized with remote \"") ++ remoteName ++
        chars ("\". You may need to push or pull in order to ensure we can safely push release information"))
      (some ec)
    pure ()

/-- The spec phrase for a detached HEAD: no symbolic ref resolves to a branch
name.  In the embedding this covers both realisations of that situation: the
`git symbolic-ref HEAD` command exiting non-zero (what git actually does on a
detached HEAD) and the command succeeding with an empty result. -/
def detachedHead (env : RepoEnv) : Bool :=
  env.symbolicRefRes.code != 0 || (jsTrim env.symbolicRefRes.output).isEmpty

/-- The command string of the `_hasTag` remote-tag query. -/
def lsRemoteCmd (remoteName tagName : List Char) : List Char :=
  chars ("git ls-remote --tags ") ++ remoteName ++ ' ' :: tagName

/-- The failure kinds of `validateTargetVersion`. -/
def invalidSemverMsg (toVersion : List Char) : List Char :=
  chars ("The target version of ") ++ toVersion ++ chars (" is not a valid semver version")

/-- The not-greater diagnostic of `validateTargetVersion`. -/
def notGreaterMsg (toVersion currentVersion : List Char) : List Char :=
  chars ("The target version of ") ++ toVersion ++
    chars (" should be greater than the current version ") ++ currentVersion

/-- The tag-collision diagnostic of `validateTargetVersion`. -/
def tagExistsMsg (toVersion remoteName : List Char) : List Char :=
  chars ("The tag ") ++ toVersion ++
    chars (" already exists in the remote repository ") ++ remoteName

/-- Embedding of `validateTargetVersion(packageJson, toVersion, remoteName,
errCode)`.  Besides the `exec` result of the single external command it may
run (the `git ls-remote --tags` query of `_hasTag`, supplied as
`lsRemoteRes`), the embedding also returns the list of external commands that
were actually executed, so that the absence of any mutating step is visible in
the result.  `semver.gt` throwing on an unparseable current version is
modelled as a distinct failure (`TypeError`). -/
def validateTargetVersion (pjVersion toVersion remoteName : List Char)
    (lsRemoteRes : CmdResult) (errCode : Nat) :
    Except Failure Unit × List (List Char) :=
  if !(semverValid toVersion) then
    (Except.error ⟨errCode, invalidSemverMsg toVersion⟩, [])
  else
    match semverParse toVersion, semverParse pjVersion with
    | some target, some current =>
      if !(semverGt target current) then
        (Except.error ⟨errCode, notGreaterMsg toVersion pjVersion⟩, [])
      else
        -- _hasTag(remoteName, toVersion): called without an errCode, so its
        -- internal exec uses errCode || 1 = 1.
        match execM (lsRemoteCmd remoteName toVersion) lsRemoteRes
            (chars ("An error occurred listning remote tags")) (some 1) with
        | Except.error f => (Except.error f, [lsRemoteCmd remoteName toVersion])
        | Except.ok out =>
          if !(jsTrim out).isEmpty then
            (Except.error ⟨errCode, tagExistsMsg toVersion remoteName⟩,
              [lsRemoteCmd remoteName toVersion])
          else (Except.ok (), [lsRemoteCmd remoteName toVersion])
    | _, none =>
      (Except.error ⟨1, chars ("TypeError: Invalid Version: ") ++ pjVersion⟩, [])
    | none, _ =>
      (Except.error ⟨errCode, invalidSemverMsg toVersion⟩, [])

/-- The `sed` pattern `util.format('\n  "version": "%s",\n', v)`. -/
def versionPattern (v : List Char) : List Char :=
  chars ("\n  \"version\": \"") ++ v ++ chars ("\",\n")

/-- Final state of a `bumpPackageJsonVersion` run: the process outcome and the
content the manifest file holds afterwards (the in-place `sed` has already
written the file when the checks run). -/
structure BumpResult where
  result : Except Nat Unit
  file : List Char
deriving Repr

/-- Embedding of `bumpPackageJsonVersion(packageJsonPath, fromVersion,
toVersion, errCode)` acting on the manifest content `content`: a bogus
in-place replace of `\x7d"` by itself recovers the current content, the
version pattern is replaced in place, a result equal to the pre-replace
content is reported as a failure, and the rewritten file must contain the
target pattern. -/
def bumpPackageJsonVersion (content fromVersion toVersion : List Char)
    (errCode : Nat) : BumpResult :=
  let replaceSource := versionPattern fromVersion
  let replaceWith := versionPattern toVersion
  let contentBefore := replaceFirst content (chars ("\x7d\"")) (chars ("\x7d\""))
  let contentAfter := replaceFirst contentBefore replaceSource replaceWith
  if contentBefore = contentAfter then
    ⟨Except.error errCode, contentAfter⟩
  else if !(containsStr contentAfter replaceWith) then
    ⟨Except.error errCode, contentAfter⟩
  else ⟨Except.ok (), contentAfter⟩

/-- Embedding of `checksumPackage(packagePath, errCode)` given the result of
the `shasum` command: the first space-separated chunk of the (untrimmed)
output is written to `<packagePath>.sha1.txt`.  Returns the checksum file path
and the content written to it. -/
def checksumPackage (shasumRes : CmdResult) (packagePath : List Char)
    (errCode : Option Nat) : Except Failure (List Char × List Char) :=
  let ec := jsOr errCode 1
  (execM (chars ("shasum ")  ++ packagePath) shasumRes
      (chars ("Error creating checksum for the release package")) (some ec)).map
    fun out =>
      let sha1sum := (jsSplit ' ' out).headD []
      (packagePath ++ chars (".sha1.txt"), sha1sum)

/-- The directory part of a path: everything up to and including the last
`/` (empty when the path has no directory part). -/
def dirOf (p : List Char) : List Char :=
  ((p.reverse.dropWhile (fun c => !(c == '/'))).reverse)

/-- Embedding of the upload module `_filename` helper: the last `/`-separated
component of a path. -/
def _filename (p : List Char) : List Char := (jsSplit '/' p).getLastD []

/-- Model of node `path.join(a, b)` for the invocations of the upload module.
It is faithful for nonempty, already-normalized segments (no empty segment,
no `.`/`..` component, no duplicate slash at the seam); the theorems below
only invoke it under hypotheses that keep the arguments in that region. -/
def pathJoin (a b : List Char) : List Char := a ++ '/' :: b

/-- Collaborator outcomes for the upload module: success of `fs.stat` on a
local path and of `s3.PutObject` on an object name. -/
structure S3Env where
  statOk : List Char → Bool
  putOk : List Char → Bool

/-- Embedding of `_upload(s3, bucketName, objectName, srcPath, callback)`:
`fs.stat` failure surfaces through the callback before any put is attempted;
otherwise the put is attempted (recorded in the second component) and its
outcome surfaces through the callback. -/
def s3uploadOne (env : S3Env) (objectName srcPath : List Char) :
    Except (List Char) Unit × List (List Char × List Char) :=
  if env.statOk srcPath then
    ((if env.putOk objectName then Except.ok () else
        Except.error (chars ("PutObject failed for ") ++ objectName)),
      [(objectName, srcPath)])
  else (Except.error (chars ("stat failed for ") ++ srcPath), [])

/-- The (garbled, `%s` left unsubstituted — faithful to the source, which
passes `describe.tag` to the callback instead of to `util.format`) message of
the wrong-dot-count error in `upload`. -/
def dotCountErrMsg : List Char :=
  chars ("Most recent tag must contain exactly 2 dots. e.g., <number>.<number>.<number>. However, it was: %s")

/-- Embedding of `upload(bucketName, regionId, packagePath, checksumPath,
callback)` given the raw output of the parameterless `CoreUtil.gitDescribe()`
(which, with no `fromTag`, always returns its parse; the `_.isString` guard on
the tag is omitted because the first token of a split is always a string).
Returns the callback outcome and the list of `(objectName, srcPath)` puts
attempted. -/
def upload (env : S3Env) (describeRaw packagePath checksumPath : List Char) :
    Except (List Char) Unit × List (List Char × List Char) :=
  let describe := gitDescribeParse describeRaw
  if (jsSplit '.' describe.tag).length ≠ 3 then
    (Except.error dotCountErrMsg, [])
  else
    let baseName := joinWith '.' ((jsSplit '.' describe.tag).take 2)
    let packageUploadPath := pathJoin baseName (_filename packagePath)
    let checksumUploadPath := pathJoin baseName (_filename checksumPath)
    match s3uploadOne env packageUploadPath packagePath with
    | (Except.error e, ups) => (Except.error e, ups)
    | (Except.ok _, ups1) =>
      match s3uploadOne env checksumUploadPath checksumPath with
      | (Except.error e, ups2) => (Except.error e, ups1 ++ ups2)
      | (Except.ok _, ups2) => (Except.ok (), ups1 ++ ups2)

/-- The state `validateUpload` inspects: existence of the two artifact files
and the two credential environment variables (`none` models an unset
variable; note that a set-but-empty variable is falsy as well). -/
structure UploadEnv where
  pkgExists : Bool
  chkExists : Bool
  awsAccessKeyId : Option (List Char)
  awsSecretAccessKey : Option (List Char)
deriving Repr

/-- Embedding of `validateUpload(packagePath, checksumPath, errCode)`:
the two files must exist and both credential variables must be truthy,
otherwise the process exits with `errCode || 1`. -/
def validateUpload (env : UploadEnv) (errCode : Option Nat) : Except Nat Unit :=
  let ec := jsOr errCode 1
  if !env.pkgExists then Except.error (jsOr errCode 1)
  else if !env.chkExists then Except.error ec
  else if !(truthyStr env.awsAccessKeyId) then Except.error ec
  else if !(truthyStr env.awsSecretAccessKey) then Except.error ec
  else Except.ok ()

/-- Failure of the composed upload entry point: either a process exit (from
`validateUpload`, with its exit code) or a callback error (from `upload`). -/
inductive UploadFailure where
  | exited (code : Nat)
  | callbackErr (msg : List Char)
deriving DecidableEq, Repr

/-- Modelled from the spec: the upload entry point (a bin script that is not
part of the sources under verification) runs `validateUpload` and only on
success invokes `upload`; a validation failure therefore precedes any upload
attempt.  The second component records the puts attempted. -/
def uploadRun (env : UploadEnv) (s3 : S3Env) (errCode : Option Nat)
    (describeRaw packagePath checksumPath : List Char) :
    Except UploadFailure Unit × List (List Char × List Char) :=
  match validateUpload env errCode with
  | Except.error c => (Except.error (UploadFailure.exited c), [])
  | Except.ok _ =>
    match upload s3 describeRaw packagePath checksumPath with
    | (Except.error e, ups) => (Except.error (UploadFailure.callbackErr e), ups)
    | (Except.ok _, ups) => (Except.ok (), ups)

/-- The stages of the release pipeline that matter to the validation claims. -/
inductive Stage where
  | validateRepo
  | loadManifest
  | validateTarget
  | bumpManifest
deriving DecidableEq, Repr

/-- Environment of a release pipeline run. -/
structure ReleaseEnv where
  repo : RepoEnv
  /-- Current content of the manifest file. -/
  manifest : List Char
  /-- `require(packageJsonPath)` outcome: `none` when the file is missing,
  otherwise the parsed `(name, version)` pair. -/
  parsedManifest : Option (List Char × List Char)
  /-- Result of the `git ls-remote --tags` query of `validateTargetVersion`. -/
  lsRemoteRes : CmdResult
deriving Repr

/-- Outcome of a release pipeline run: the process outcome, the final manifest
file content, and the stages that actually started. -/
structure ReleaseOutcome where
  result : Except Failure Unit
  manifest : List Char
  stagesRun : List Stage
deriving Repr

/-- Embedding of `loadPackageJson(packageJsonPath, expectedName, errCode)`:
the parsed manifest must exist, carry the expected name and a valid semver
version. -/
def loadPackageJson (parsed : Option (List Char × List Char))
    (expectedName : List Char) (errCode : Option Nat) :
    Except Failure (List Char × List Char) :=
  let ec := jsOr errCode 1
  match parsed with
  | none => Except.error ⟨ec, chars ("Could not locate the package.json file")⟩
  | some (name, version) =>
    if name ≠ expectedName then
      Except.error ⟨ec, chars ("package.json is not for the expected module")⟩
    else if !(semverValid version) then
      Except.error ⟨ec, chars ("package.json does not have a valid version")⟩
    else Except.ok (name, version)

/-- Modelled from the spec: the release orchestrator (a bin script that is not
part of the sources under verification) chains repository validation, manifest
load, target validation and the manifest version bump in that order, each
stage running only if every earlier stage succeeded (§4.4 of the spec; the
hard-exit semantics of the Command Runner make the short-circuiting
automatic in the original).  Later stages (shrinkwrap, commit/tag/push) do not
affect the claims and are elided after the bump. -/
def releaseRun (env : ReleaseEnv) (remoteName expectedName toVersion : List Char)
    (errCode : Option Nat) : ReleaseOutcome :=
  match validateRelease remoteName env.repo errCode with
  | Except.error f => ⟨Except.error f, env.manifest, [Stage.validateRepo]⟩
  | Except.ok _ =>
    match loadPackageJson env.parsedManifest expectedName errCode with
    | Except.error f =>
      ⟨Except.error f, env.manifest, [Stage.validateRepo, Stage.loadManifest]⟩
    | Except.ok (_, version) =>
      match validateTargetVersion version toVersion remoteName env.lsRemoteRes
          (jsOr errCode 1) with
      | (Except.error f, _) =>
        ⟨Except.error f, env.manifest,
          [Stage.validateRepo, Stage.loadManifest, Stage.validateTarget]⟩
      | (Except.ok _, _) =>
        let bump := bumpPackageJsonVersion env.manifest version toVersion
          (jsOr errCode 1)
        ⟨(bump.result.mapError fun c => ⟨c, chars ("version bump failed")⟩),
          bump.file,
          [Stage.validateRepo, Stage.loadManifest, Stage.validateTarget,
            Stage.bumpManifest]⟩

/-- A token is clean when it contains neither the separator `-` nor
whitespace: such tokens pass through `trim` and `split('-')` unchanged. -/
def cleanTok (l : List Char) : Bool := l.all (fun c => !(c == '-') && !(isJsWs c))

theorem dropWhile_all_neg {p : Char → Bool} :
    ∀ {l : List Char}, l.all (fun c => !p c) = true → l.dropWhile p = l
  | [], _ => rfl
  | c :: rest, h => by
    simp only [List.all_cons, Bool.and_eq_true, Bool.not_eq_true'] at h
    simp [List.dropWhile_cons, h.1]

theorem takeWhile_all_pos {p : Char → Bool} :
    ∀ {l : List Char}, l.all p = true → l.takeWhile p = l
  | [], _ => rfl
  | c :: rest, h => by
    simp only [List.all_cons, Bool.and_eq_true] at h
    simp [List.takeWhile_cons, h.1, takeWhile_all_pos h.2]

theorem jsTrim_eq_self {l : List Char} (h : l.all (fun c => !isJsWs c) = true) :
    jsTrim l = l := by
  unfold jsTrim
  rw [dropWhile_all_neg h, dropWhile_all_neg (by simpa using h), List.reverse_reverse]

theorem jsSplit_no_sep {sep : Char} :
    ∀ {l : List Char}, l.all (fun c => !(c == sep)) = true → jsSplit sep l = [l]
  | [], _ => rfl
  | c :: rest, h => by
    simp only [List.all_cons, Bool.and_eq_true, Bool.not_eq_true', beq_eq_false_iff_ne] at h
    rw [jsSplit, if_neg h.1, jsSplit_no_sep h.2]

theorem jsSplit_append_sep {sep : Char} :
    ∀ {a : List Char} (b : List Char), a.all (fun c => !(c == sep)) = true →
      jsSplit sep (a ++ sep :: b) = a :: jsSplit sep b
  | [], b, _ => by rw [List.nil_append, jsSplit, if_pos rfl]
  | c :: a', b, h => by
    simp only [List.all_cons, Bool.and_eq_true, Bool.not_eq_true', beq_eq_false_iff_ne] at h
    rw [List.cons_append, jsSplit, if_neg h.1, jsSplit_append_sep b h.2]

theorem digit_not_ws {c : Char} (h : isDigitChar c = true) : isJsWs c = false := by
  simp only [isJsWs, Bool.or_eq_false_iff, beq_eq_false_iff_ne]
  refine ⟨⟨⟨?_, ?_⟩, ?_⟩, ?_⟩ <;> rintro rfl <;> exact absurd h (by decide)

theorem digit_ne_hyphen {c : Char} (h : isDigitChar c = true) : c ≠ '-' := by
  rintro rfl; exact absurd h (by decide)

theorem digit_ne_plus {c : Char} (h : isDigitChar c = true) : c ≠ '+' := by
  rintro rfl; exact absurd h (by decide)

theorem all_not_ws_of_digits {l : List Char} (h : l.all isDigitChar = true) :
    l.all (fun c => !isJsWs c) = true := by
  simp only [List.all_eq_true] at h ⊢
  intro c hc
  simp [digit_not_ws (h c hc)]

theorem all_not_ws_of_clean {l : List Char} (h : cleanTok l = true) :
    l.all (fun c => !isJsWs c) = true := by
  simp only [cleanTok, List.all_eq_true, Bool.and_eq_true] at h
  simp only [List.all_eq_true]
  exact fun c hc => (h c hc).2

theorem all_not_hyphen_of_clean {l : List Char} (h : cleanTok l = true) :
    l.all (fun c => !(c == '-')) = true := by
  simp only [cleanTok, List.all_eq_true, Bool.and_eq_true] at h
  simp only [List.all_eq_true]
  exact fun c hc => (h c hc).1

theorem all_not_hyphen_of_digits {l : List Char} (h : l.all isDigitChar = true) :
    l.all (fun c => !(c == '-')) = true := by
  simp only [List.all_eq_true] at h ⊢
  intro c hc
  simpa using digit_ne_hyphen (h c hc)

theorem jsParseInt_digits {ds : List Char} (hne : ds ≠ [])
    (hd : ds.all isDigitChar = true) :
    jsParseInt (some ds) = some (Int.ofNat (digitsVal ds)) := by
  match ds, hne with
  | d :: ds', _ =>
    have hall := hd
    simp only [List.all_cons, Bool.and_eq_true] at hd
    have h1 : List.dropWhile isJsWs (d :: ds') = d :: ds' :=
      dropWhile_all_neg (all_not_ws_of_digits hall)
    simp only [jsParseInt, h1]
    rw [if_neg (digit_ne_hyphen hd.1), if_neg (digit_ne_plus hd.1)]
    simp only [jsParseInt.parseDigitsPrefix, takeWhile_all_pos hall]
    simp

theorem digitsVal_append_digit (xs : List Char) (c : Char) :
    digitsVal (xs ++ [c]) = 10 * digitsVal xs + digitVal c := by
  simp [digitsVal, List.foldl_append]

theorem digitVal_ofNat {d : Nat} (h : d < 10) :
    digitVal (Char.ofNat (48 + d)) = d := by
  interval_cases d <;> decide

theorem isDigitChar_ofNat {d : Nat} (h : d < 10) :
    isDigitChar (Char.ofNat (48 + d)) = true := by
  interval_cases d <;> decide

theorem digitsVal_natToDec (n : Nat) : digitsVal (natToDec n) = n := by
  induction n using Nat.strong_induction_on with
  | _ n ih =>
    rw [natToDec]
    split
    · rename_i h
      have : digitsVal [Char.ofNat (48 + n)] = digitVal (Char.ofNat (48 + n)) := by
        simp [digitsVal, digitVal]
      rw [this, digitVal_ofNat h]
    · rename_i h
      rw [digitsVal_append_digit,
        ih (n / 10) (Nat.div_lt_self (by omega) (by omega)),
        digitVal_ofNat (Nat.mod_lt _ (by omega))]
      omega

theorem natToDec_all_digits (n : Nat) : (natToDec n).all isDigitChar = true := by
  induction n using Nat.strong_induction_on with
  | _ n ih =>
    rw [natToDec]
    split
    · rename_i h
      simp [isDigitChar_ofNat h]
    · rename_i h
      rw [List.all_append]
      simp [ih (n / 10) (Nat.div_lt_self (by omega) (by omega)),
        isDigitChar_ofNat (show n % 10 < 10 by omega)]

theorem natToDec_ne_nil (n : Nat) : natToDec n ≠ [] := by
  rw [natToDec]
  split <;> simp

/-- Core describe-parsing lemma: on a full `tag-commits-ghash` output with
clean tokens, `gitDescribeParse` recovers the three components, the commit
distance parsed as an integer and the hash with its leading `g` stripped. -/
theorem gitDescribeParse_full {tag ds hash : List Char}
    (htag : cleanTok tag = true) (hne : ds ≠ [])
    (hds : ds.all isDigitChar = true) (hhash : cleanTok hash = true) :
    gitDescribeParse (tag ++ '-' :: (ds ++ '-' :: 'g' :: hash)) =
      ⟨tag, some (Int.ofNat (digitsVal ds)), some hash⟩ := by
  have hraw : (tag ++ '-' :: (ds ++ '-' :: 'g' :: hash)).all (fun c => !isJsWs c) = true := by
    simp only [List.all_append, List.all_cons, Bool.and_eq_true]
    exact ⟨all_not_ws_of_clean htag, by decide,
      all_not_ws_of_digits hds, by decide, by decide, all_not_ws_of_clean hhash⟩
  have hsplit : jsSplit '-' (tag ++ '-' :: (ds ++ '-' :: 'g' :: hash)) =
      [tag, ds, 'g' :: hash] := by
    rw [jsSplit_append_sep _ (all_not_hyphen_of_clean htag),
      jsSplit_append_sep _ (all_not_hyphen_of_digits hds),
      jsSplit_no_sep (l := 'g' :: hash)
        (by simp only [List.all_cons, Bool.and_eq_true]
            exact ⟨by decide, all_not_hyphen_of_clean hhash⟩)]
  unfold gitDescribeParse
  rw [jsTrim_eq_self hraw, hsplit]
  simp only [List.headD, List.drop, List.head?]
  rw [jsParseInt_digits hne hds]
  rfl

/-- Core describe-parsing lemma: on a tag-only output with a clean tag, both
the commit distance and the hash are absent. -/
theorem gitDescribeParse_tagOnly {tag : List Char} (htag : cleanTok tag = true) :
    gitDescribeParse tag = ⟨tag, none, none⟩ := by
  unfold gitDescribeParse
  rw [jsTrim_eq_self (all_not_ws_of_clean htag),
    jsSplit_no_sep (all_not_hyphen_of_clean htag)]
  rfl

/-- With no `fromTag`, `gitDescribe` always returns its parse. -/
theorem gitDescribe_none (raw : List Char) (errCode : Option Nat) :
    gitDescribe none raw errCode = Except.ok (gitDescribeParse raw) := rfl

/-- C1: for every raw describe output of the form `tag-commits-ghash` (tag a
token without hyphen or whitespace, commits a nonempty string of decimal
digits, hash a token without hyphen or whitespace), `gitDescribe` returns
exactly the record with that tag, the integer commit distance, and the hash
with the leading `g` disambiguation character stripped. -/
theorem C1_gitDescribe_parses_full_form (tag ds hash : List Char)
    (errCode : Option Nat) (htag : cleanTok tag = true) (hne : ds ≠ [])
    (hds : ds.all isDigitChar = true) (hhash : cleanTok hash = true) :
    gitDescribe none (tag ++ '-' :: (ds ++ '-' :: 'g' :: hash)) errCode =
      Except.ok ⟨tag, some (Int.ofNat (digitsVal ds)), some hash⟩ := by
  rw [gitDescribe_none, gitDescribeParse_full htag hne hds hhash]

/-- Witness for C1 at the concrete describe output `v1.2.3-4-gdeadbee`. -/
theorem C1_witness :
    cleanTok (chars ("v1.2.3")) = true ∧
    gitDescribe none
        (chars ("v1.2.3") ++ '-' :: (chars ("4") ++ '-' :: 'g' :: chars ("deadbee")))
        none =
      Except.ok ⟨chars ("v1.2.3"), some 4, some (chars ("deadbee"))⟩ :=
  ⟨by decide,
    C1_gitDescribe_parses_full_form (chars ("v1.2.3")) (chars ("4"))
      (chars ("deadbee")) none (by decide) (by decide) (by decide) (by decide)⟩

/-- C2 counterexample: the describe output `v1-2` consists of only a tag (a
legal git tag name containing a hyphen followed by digits; there is no
`-commits-ghash` suffix), yet `gitDescribe` reports a present commit distance
of `2` rather than an absent one. -/
theorem C2_counterexample :
    gitDescribe none (chars ("v1-2")) none =
      Except.ok ⟨chars ("v1"), some 2, none⟩ ∧
    ¬((gitDescribeParse (chars ("v1-2"))).commits = none ∧
      (gitDescribeParse (chars ("v1-2"))).hash = none) :=
  ⟨rfl, by decide⟩

/-- C2 (amended): for every describe output consisting of only a tag that
contains neither a hyphen nor whitespace, `gitDescribe` returns a record in
which both the commit distance and the hash are absent. -/
theorem C2_amended_tag_only_absent (tag : List Char) (errCode : Option Nat)
    (htag : cleanTok tag = true) :
    gitDescribe none tag errCode = Except.ok ⟨tag, none, none⟩ := by
  rw [gitDescribe_none, gitDescribeParse_tagOnly htag]

/-- Witness for the amended C2 at the concrete describe output `v1.2.3`. -/
theorem C2_amended_witness :
    cleanTok (chars ("v1.2.3")) = true ∧
    gitDescribe none (chars ("v1.2.3")) none =
      Except.ok ⟨chars ("v1.2.3"), none, none⟩ :=
  ⟨by decide, C2_amended_tag_only_absent (chars ("v1.2.3")) none (by decide)⟩

/-- C10: round trip between describe parsing and version rendering.  For a
full describe output `tag-n-ghash` (clean tag and hash, hash nonempty,
`n ≥ 1` rendered canonically), `gitVersion` returns the original string with
only the `g` disambiguation character removed; for a tag-only output it
returns the tag unchanged. -/
theorem C10_gitVersion_roundtrip (tag hash : List Char) (n : Nat)
    (errCode : Option Nat) (htag : cleanTok tag = true) (hn : 1 ≤ n)
    (hhash : cleanTok hash = true) (hne : hash ≠ []) :
    gitVersion none (tag ++ '-' :: (natToDec n ++ '-' :: 'g' :: hash)) errCode =
      Except.ok (tag ++ '-' :: (natToDec n ++ '-' :: hash)) ∧
    gitVersion none tag errCode = Except.ok tag := by
  constructor
  · have hd := gitDescribeParse_full htag (natToDec_ne_nil n)
      (natToDec_all_digits n) hhash
    rw [digitsVal_natToDec] at hd
    have hnz : (Int.ofNat n : Int) ≠ 0 := Int.natCast_ne_zero.mpr (by omega)
    have hne' : hash.isEmpty = false := by
      cases hash with
      | nil => exact absurd rfl hne
      | cons c t => rfl
    simp only [gitVersion, gitDescribe_none, hd, Except.map]
    rw [if_pos hnz]
    simp [hne', intToDec, List.append_assoc]
  · simp only [gitVersion, gitDescribe_none, gitDescribeParse_tagOnly htag,
      Except.map]

/-- Witness for C10 at the concrete describe output `v1.2.3-4-gdeadbee`. -/
theorem C10_witness :
    gitVersion none
        (chars ("v1.2.3") ++ '-' :: (natToDec 4 ++ '-' :: 'g' :: chars ("deadbee")))
        none =
      Except.ok (chars ("v1.2.3") ++ '-' :: (natToDec 4 ++ '-' :: chars ("deadbee"))) ∧
    gitVersion none (chars ("v1.2.3")) none = Except.ok (chars ("v1.2.3")) :=
  C10_gitVersion_roundtrip (chars ("v1.2.3")) (chars ("deadbee")) 4 none
    (by decide) (by decide) (by decide) (by decide)

/-- `semver.gt` lifted to version strings (false when either side fails to
parse; `validateTargetVersion` only reaches the comparison with parseable
arguments, cf. the hypotheses of the C3 theorem). -/
def semverGtStr (a b : List Char) : Bool :=
  match semverParse a, semverParse b with
  | some x, some y => semverGt x y
  | _, _ => false

/-- Sample behaviour of the embedded node-semver grammar and ordering. -/
theorem semver_examples :
    semverValid (chars ("1.2")) = false ∧
    semverValid (chars ("abc")) = false ∧
    semverValid (chars ("2.0.9")) = true ∧
    semverGtStr (chars ("2.0.9")) (chars ("2.1.0")) = false ∧
    semverGtStr (chars ("2.1.0")) (chars ("2.1.0")) = false ∧
    semverGtStr (chars ("2.2.0")) (chars ("2.1.0")) = true ∧
    semverGtStr (chars ("1.0.0")) (chars ("1.0.0-rc.1")) = true := by
  decide

/-- C3: target-version validation fails exactly when the target is not valid
semver, or is not strictly greater than the current version per semver
ordering, or already exists as a tag on the named remote (a nonempty
`git ls-remote --tags` answer); the checks run in that order — an
invalid-semver target fails with the invalid-semver diagnostic before the
ordering or remote-tag query runs (no external command is executed), a valid
but not-greater target fails with the not-greater diagnostic still without
any external command, and a tag collision fails with the collision diagnostic
after the single read-only listing query; every external command executed is
that read-only listing, so on success (and on every other path) no mutating
command runs. -/
theorem C3_validateTargetVersion_checks (pjVersion toVersion remoteName : List Char)
    (lsRemoteRes : CmdResult) (errCode : Nat)
    (hcur : semverValid pjVersion = true) (hgit : lsRemoteRes.code = 0) :
    ((validateTargetVersion pjVersion toVersion remoteName lsRemoteRes errCode).1
        = Except.ok ()
      ↔ (semverValid toVersion = true ∧ semverGtStr toVersion pjVersion = true ∧
          (jsTrim lsRemoteRes.output).isEmpty = true)) ∧
    (semverValid toVersion = false →
      validateTargetVersion pjVersion toVersion remoteName lsRemoteRes errCode
        = (Except.error ⟨errCode, invalidSemverMsg toVersion⟩, [])) ∧
    (semverValid toVersion = true → semverGtStr toVersion pjVersion = false →
      validateTargetVersion pjVersion toVersion remoteName lsRemoteRes errCode
        = (Except.error ⟨errCode, notGreaterMsg toVersion pjVersion⟩, [])) ∧
    (semverValid toVersion = true → semverGtStr toVersion pjVersion = true →
      (jsTrim lsRemoteRes.output).isEmpty = false →
      validateTargetVersion pjVersion toVersion remoteName lsRemoteRes errCode
        = (Except.error ⟨errCode, tagExistsMsg toVersion remoteName⟩,
            [lsRemoteCmd remoteName toVersion])) ∧
    (∀ c ∈ (validateTargetVersion pjVersion toVersion remoteName lsRemoteRes
        errCode).2, c = lsRemoteCmd remoteName toVersion) := by
  rcases hpj : semverParse pjVersion with _ | cur
  · rw [semverValid, hpj] at hcur
    exact absurd hcur (by decide)
  rcases hto : semverParse toVersion with _ | target
  · have hv : semverValid toVersion = false := by simp [semverValid, hto]
    unfold validateTargetVersion
    simp [hv, semverGtStr, hto]
  · have hv : semverValid toVersion = true := by simp [semverValid, hto]
    have hgts : semverGtStr toVersion pjVersion = semverGt target cur := by
      simp [semverGtStr, hto, hpj]
    unfold validateTargetVersion
    by_cases hgt : semverGt target cur = true
    · by_cases hemp : (jsTrim lsRemoteRes.output).isEmpty = true
      · simp [hv, hto, hpj, hgt, hgts, execM, hgit, hemp]
      · simp [hv, hto, hpj, hgt, hgts, execM, hgit, hemp]
    · have hgtf : semverGt target cur = false := by
        cases h : semverGt target cur
        · rfl
        · exact absurd h hgt
      simp [hv, hto, hpj, hgts, hgtf]

/-- Witness for C3: current version `2.1.0`, target `2.2.0`, no remote tag —
validation succeeds. -/
theorem C3_witness :
    semverValid (chars ("2.1.0")) = true ∧
    (validateTargetVersion (chars ("2.1.0")) (chars ("2.2.0")) (chars ("origin"))
        ⟨0, []⟩ 7).1 = Except.ok () :=
  ⟨by decide,
    ((C3_validateTargetVersion_checks (chars ("2.1.0")) (chars ("2.2.0"))
        (chars ("origin")) ⟨0, []⟩ 7 (by decide) rfl).1).mpr
      ⟨by decide, by decide, rfl⟩⟩

theorem jsOr_one_pos : ∀ (a : Option Nat), 0 < jsOr a 1
  | none => Nat.zero_lt_one
  | some 0 => Nat.zero_lt_one
  | some (n + 1) => Nat.succ_pos n

theorem jsOr_some_of_pos : ∀ {e : Nat}, 0 < e → ∀ (b : Nat), jsOr (some e) b = e
  | _ + 1, _, _ => rfl

/-- A concrete repository environment with a clean tree where
`git symbolic-ref HEAD` itself fails — what git actually does on a detached
HEAD (`fatal: ref HEAD is not a symbolic ref`, exit code 128). -/
def detachedEnvExample : RepoEnv :=
  ⟨⟨0, []⟩, ⟨0, []⟩, ⟨0, []⟩,
    ⟨128, chars ("fatal: ref HEAD is not a symbolic ref")⟩, ⟨0, []⟩, ⟨0, []⟩⟩

/-- C5 counterexample: on a repository whose HEAD is detached (no symbolic
ref resolves: the `git symbolic-ref HEAD` command exits 128), `validateRelease`
does fail with a non-zero status, but its diagnostic is the branch-
determination error of `exec`, not the claimed "must be on a branch"
diagnostic. -/
theorem C5_counterexample :
    detachedHead detachedEnvExample = true ∧
    validateRelease (chars ("origin")) detachedEnvExample none =
      Except.error ⟨1, branchDetermineErrMsg ++
        execFailSuffix (chars ("git symbolic-ref HEAD")) 128⟩ ∧
    branchDetermineErrMsg ++ execFailSuffix (chars ("git symbolic-ref HEAD")) 128 ≠
      mustBeOnBranchMsg :=
  ⟨rfl, rfl, by decide⟩

/-- C5 (amended): whenever HEAD is detached (no symbolic ref resolves to a
branch name) and the preceding cleanliness checks pass, `validateRelease`
fails with a non-zero exit status; the "must be on a named branch" diagnostic
is emitted exactly when the symbolic-ref query itself succeeds with an empty
result, while a failing symbolic-ref command aborts with the generic
branch-determination diagnostic of `exec`. -/
theorem C5_amended_detached_head_fails (remoteName : List Char) (env : RepoEnv)
    (errCode : Option Nat) (hstatus : env.statusRes.code = 0)
    (hdf : env.diffFilesRes.code = 0) (hdi : env.diffIndexRes.code = 0)
    (hdet : detachedHead env = true) :
    ∃ f, validateRelease remoteName env errCode = Except.error f ∧
      0 < f.exitCode ∧
      (env.symbolicRefRes.code = 0 → f.msg = mustBeOnBranchMsg) ∧
      (env.symbolicRefRes.code ≠ 0 →
        f.msg = branchDetermineErrMsg ++
          execFailSuffix (chars ("git symbolic-ref HEAD")) env.symbolicRefRes.code) := by
  have hec : 0 < jsOr errCode 1 := jsOr_one_pos errCode
  rcases hc : env.symbolicRefRes.code with _ | c
  · have hemp : jsTrim env.symbolicRefRes.output = [] := by
      have h1 : (jsTrim env.symbolicRefRes.output).isEmpty = true := by
        simpa [detachedHead, hc] using hdet
      exact List.isEmpty_iff.mp h1
    refine ⟨⟨jsOr errCode 1, mustBeOnBranchMsg⟩, ?_, hec, fun _ => rfl,
      fun h => absurd rfl h⟩
    simp [validateRelease, _getCurrentBranchName, execM, hstatus, hdf, hdi, hc,
      hemp, Except.map, bind, Except.bind, pure, Except.pure]
  · refine ⟨⟨jsOr (some (jsOr errCode 1)) (c + 1),
      branchDetermineErrMsg ++
        execFailSuffix (chars ("git symbolic-ref HEAD")) (c + 1)⟩, ?_, ?_, ?_, ?_⟩
    · simp [validateRelease, _getCurrentBranchName, execM, hstatus, hdf, hdi, hc,
        Except.map, bind, Except.bind, pure, Except.pure, jsOr_some_of_pos hec]
    · rw [jsOr_some_of_pos hec]
      exact hec
    · intro h
      exact absurd h (Nat.succ_ne_zero c)
    · intro _
      rfl

/-- A repository environment where the symbolic-ref query succeeds but
resolves to nothing (the realisation of a detached HEAD under which the
claimed diagnostic is emitted). -/
def detachedEnvEmptyExample : RepoEnv :=
  ⟨⟨0, []⟩, ⟨0, []⟩, ⟨0, []⟩, ⟨0, []⟩, ⟨0, []⟩, ⟨0, []⟩⟩

/-- Witness for the amended C5 at a concrete detached-HEAD environment. -/
theorem C5_amended_witness :
    detachedHead detachedEnvEmptyExample = true ∧
    ∃ f, validateRelease (chars ("origin")) detachedEnvEmptyExample none =
        Except.error f ∧
      0 < f.exitCode ∧
      (detachedEnvEmptyExample.symbolicRefRes.code = 0 →
        f.msg = mustBeOnBranchMsg) ∧
      (detachedEnvEmptyExample.symbolicRefRes.code ≠ 0 →
        f.msg = branchDetermineErrMsg ++
          execFailSuffix (chars ("git symbolic-ref HEAD"))
            detachedEnvEmptyExample.symbolicRefRes.code) :=
  ⟨by decide,
    C5_amended_detached_head_fails (chars ("origin")) detachedEnvEmptyExample
      none rfl rfl rfl (by decide)⟩

/-- C6: whenever the working tree is dirty — the unstaged-changes check or
the uncommitted-staged-changes check of repository validation fails — the
release pipeline aborts during repository validation with a non-zero exit
code carrying the corresponding diagnostic: no later stage starts and the
manifest file is left exactly as it was. -/
theorem C6_dirty_tree_aborts_before_mutation (env : ReleaseEnv)
    (remoteName expectedName toVersion : List Char) (errCode : Option Nat)
    (hstatus : env.repo.statusRes.code = 0)
    (hdirty : env.repo.diffFilesRes.code ≠ 0 ∨ env.repo.diffIndexRes.code ≠ 0) :
    ∃ f, (releaseRun env remoteName expectedName toVersion errCode).result =
        Except.error f ∧
      0 < f.exitCode ∧
      (f.msg = unstagedErrMsg ++
          execFailSuffix (chars ("git diff-files --quiet"))
            env.repo.diffFilesRes.code ∨
        f.msg = uncommittedErrMsg ++
          execFailSuffix (chars ("git diff-index --quiet --cached HEAD"))
            env.repo.diffIndexRes.code) ∧
      (releaseRun env remoteName expectedName toVersion errCode).stagesRun =
        [Stage.validateRepo] ∧
      (releaseRun env remoteName expectedName toVersion errCode).manifest =
        env.manifest := by
  have hec : 0 < jsOr errCode 1 := jsOr_one_pos errCode
  rcases hdf : env.repo.diffFilesRes.code with _ | c
  · have hdi : env.repo.diffIndexRes.code ≠ 0 := by
      rcases hdirty with h | h
      · exact absurd hdf h
      · exact h
    rcases hdic : env.repo.diffIndexRes.code with _ | d
    · exact absurd hdic hdi
    · have hval : validateRelease remoteName env.repo errCode =
          Except.error ⟨jsOr errCode 1,
            uncommittedErrMsg ++
              execFailSuffix (chars ("git diff-index --quiet --cached HEAD"))
                (d + 1)⟩ := by
        simp [validateRelease, execM, hstatus, hdf, hdic, bind, Except.bind,
          jsOr_some_of_pos hec]
      refine ⟨⟨jsOr errCode 1,
          uncommittedErrMsg ++
            execFailSuffix (chars ("git diff-index --quiet --cached HEAD"))
              (d + 1)⟩, ?_, hec, Or.inr ?_, ?_, ?_⟩ <;>
        simp [releaseRun, hval, hdic]
  · have hval : validateRelease remoteName env.repo errCode =
        Except.error ⟨jsOr errCode 1,
          unstagedErrMsg ++
            execFailSuffix (chars ("git diff-files --quiet")) (c + 1)⟩ := by
      simp [validateRelease, execM, hstatus, hdf, bind, Except.bind,
        jsOr_some_of_pos hec]
    refine ⟨⟨jsOr errCode 1,
        unstagedErrMsg ++
          execFailSuffix (chars ("git diff-files --quiet")) (c + 1)⟩,
      ?_, hec, Or.inl ?_, ?_, ?_⟩ <;>
      simp [releaseRun, hval, hdf]

/-- A release environment with a clean status query but unstaged changes
(`git diff-files --quiet` exits 1). -/
def dirtyEnvExample : ReleaseEnv :=
  ⟨⟨⟨0, []⟩, ⟨1, []⟩, ⟨0, []⟩, ⟨0, chars ("refs/heads/main")⟩, ⟨0, []⟩, ⟨0, []⟩⟩,
    chars ("\x7b\n  \"version\": \"3.2.0\",\n\x7d\n"),
    some (chars ("Hilary"), chars ("3.2.0")), ⟨0, []⟩⟩

/-- Witness for C6 at a concrete dirty-tree environment. -/
theorem C6_witness :
    ∃ f, (releaseRun dirtyEnvExample (chars ("origin")) (chars ("Hilary"))
        (chars ("3.3.0")) none).result = Except.error f ∧
      0 < f.exitCode ∧
      (f.msg = unstagedErrMsg ++
          execFailSuffix (chars ("git diff-files --quiet"))
            dirtyEnvExample.repo.diffFilesRes.code ∨
        f.msg = uncommittedErrMsg ++
          execFailSuffix (chars ("git diff-index --quiet --cached HEAD"))
            dirtyEnvExample.repo.diffIndexRes.code) ∧
      (releaseRun dirtyEnvExample (chars ("origin")) (chars ("Hilary"))
        (chars ("3.3.0")) none).stagesRun = [Stage.validateRepo] ∧
      (releaseRun dirtyEnvExample (chars ("origin")) (chars ("Hilary"))
        (chars ("3.3.0")) none).manifest = dirtyEnvExample.manifest :=
  C6_dirty_tree_aborts_before_mutation dirtyEnvExample (chars ("origin"))
    (chars ("Hilary")) (chars ("3.3.0")) none rfl (Or.inl (by decide))

theorem dropWhile_append_all {p : Char → Bool} :
    ∀ {l1 : List Char} (l2 : List Char), l1.all p = true →
      (l1 ++ l2).dropWhile p = l2.dropWhile p
  | [], _, _ => rfl
  | c :: t, l2, h => by
    simp only [List.all_cons, Bool.and_eq_true] at h
    simp [List.dropWhile_cons, h.1, dropWhile_append_all l2 h.2]

theorem all_ne_space_of_not_ws {l : List Char}
    (h : l.all (fun c => !isJsWs c) = true) :
    l.all (fun c => !(c == ' ')) = true := by
  simp only [List.all_eq_true, Bool.not_eq_true', beq_eq_false_iff_ne] at h ⊢
  intro c hc
  intro hsp
  subst hsp
  exact absurd (h _ hc) (by decide)

/-- C8: for every package path, given a checksum-tool output of the form
`digest<space>rest` with a whitespace-free digest (so that the first
space-separated chunk the code takes is the first whitespace-delimited
token), `checksumPackage` writes exactly the raw digest — nothing else — to
the file whose path is exactly the package path with `.sha1.txt` appended,
which lies in the same directory as the package. -/
theorem C8_checksum_file (packagePath digest rest : List Char)
    (errCode : Option Nat) (hdw : digest.all (fun c => !isJsWs c) = true) :
    checksumPackage ⟨0, digest ++ ' ' :: rest⟩ packagePath errCode =
      Except.ok (packagePath ++ chars (".sha1.txt"), digest) ∧
    dirOf (packagePath ++ chars (".sha1.txt")) = dirOf packagePath := by
  constructor
  · have hs : jsSplit ' ' (digest ++ ' ' :: rest) = digest :: jsSplit ' ' rest :=
      jsSplit_append_sep _ (all_ne_space_of_not_ws hdw)
    simp [checksumPackage, execM, Except.map, hs]
  · unfold dirOf
    rw [List.reverse_append, dropWhile_append_all _ (by decide)]

/-- Witness for C8 at a concrete `shasum` output and package path. -/
theorem C8_witness :
    checksumPackage
        ⟨0, chars ("0a1b2c3d") ++ ' ' :: chars (" target/pkg.tar.gz\n")⟩
        (chars ("target/pkg.tar.gz")) none =
      Except.ok (chars ("target/pkg.tar.gz") ++ chars (".sha1.txt"),
        chars ("0a1b2c3d")) ∧
    dirOf (chars ("target/pkg.tar.gz") ++ chars (".sha1.txt")) =
      dirOf (chars ("target/pkg.tar.gz")) :=
  C8_checksum_file (chars ("target/pkg.tar.gz")) (chars ("0a1b2c3d"))
    (chars (" target/pkg.tar.gz\n")) none (by decide)

/-- C7: upload object keys.  When the resolved describe tag has exactly three
dot-separated components, both artifacts are uploaded under
`<major>.<minor>/<filename>` object keys (package first, then checksum, and
the run succeeds when the puts do); a tag with any other number of
dot-separated components makes `upload` complete with an error through the
callback and attempt no put at all.  The component/filename hypotheses of the
second part keep `pathJoin` inside the region where it is a faithful model of
node `path.join`. -/
theorem C7_upload_keys (env : S3Env)
    (describeRaw packagePath checksumPath : List Char) :
    ((jsSplit '.' (gitDescribeParse describeRaw).tag).length ≠ 3 →
      upload env describeRaw packagePath checksumPath =
        (Except.error dotCountErrMsg, [])) ∧
    (∀ major minor patch : List Char,
      jsSplit '.' (gitDescribeParse describeRaw).tag = [major, minor, patch] →
      major ≠ [] → minor ≠ [] →
      major.all (fun c => !(c == '/')) = true →
      minor.all (fun c => !(c == '/')) = true →
      _filename packagePath ≠ [] → _filename checksumPath ≠ [] →
      env.statOk packagePath = true →
      env.putOk (pathJoin (major ++ '.' :: minor) (_filename packagePath)) = true →
      env.statOk checksumPath = true →
      (upload env describeRaw packagePath checksumPath).2 =
        [(pathJoin (major ++ '.' :: minor) (_filename packagePath), packagePath),
          (pathJoin (major ++ '.' :: minor) (_filename checksumPath),
            checksumPath)] ∧
      (env.putOk (pathJoin (major ++ '.' :: minor) (_filename checksumPath)) = true →
        upload env describeRaw packagePath checksumPath =
          (Except.ok (),
            [(pathJoin (major ++ '.' :: minor) (_filename packagePath),
                packagePath),
              (pathJoin (major ++ '.' :: minor) (_filename checksumPath),
                checksumPath)]))) := by
  constructor
  · intro h
    unfold upload
    rw [if_pos h]
  · intro major minor patch hsplit _ _ _ _ _ _ hstat1 hput1 hstat2
    have hlen : ¬((jsSplit '.' (gitDescribeParse describeRaw).tag).length ≠ 3) := by
      rw [hsplit]
      simp
    have hbase : joinWith '.' ((jsSplit '.' (gitDescribeParse describeRaw).tag).take 2) =
        major ++ '.' :: minor := by
      rw [hsplit]
      rfl
    constructor
    · unfold upload
      rw [if_neg hlen, hbase]
      simp [s3uploadOne, hstat1, hput1, hstat2]
      cases env.putOk (pathJoin (major ++ '.' :: minor) (_filename checksumPath)) <;>
        simp
    · intro hput2
      unfold upload
      rw [if_neg hlen, hbase]
      simp [s3uploadOne, hstat1, hput1, hstat2, hput2]

/-- Witness for C7: tag `4.2.5`, keys `4.2/<filename>`. -/
theorem C7_witness :
    (upload ⟨fun _ => true, fun _ => true⟩ (chars ("4.2.5-3-gbadcafe"))
        (chars ("target/pkg.tar.gz")) (chars ("target/pkg.tar.gz.sha1.txt"))).2 =
      [(pathJoin (chars ("4") ++ '.' :: chars ("2"))
          (_filename (chars ("target/pkg.tar.gz"))), chars ("target/pkg.tar.gz")),
        (pathJoin (chars ("4") ++ '.' :: chars ("2"))
          (_filename (chars ("target/pkg.tar.gz.sha1.txt"))),
          chars ("target/pkg.tar.gz.sha1.txt"))] :=
  ((C7_upload_keys ⟨fun _ => true, fun _ => true⟩ (chars ("4.2.5-3-gbadcafe"))
      (chars ("target/pkg.tar.gz")) (chars ("target/pkg.tar.gz.sha1.txt"))).2
    (chars ("4")) (chars ("2")) (chars ("5")) (by decide) (by decide) (by decide)
    (by decide) (by decide) (by decide) (by decide) rfl rfl rfl).1

/-- C9: whenever either credential environment variable is absent, the upload
entry point fails with a non-zero exit status during `validateUpload`, before
any upload attempt is made (no put is attempted). -/
theorem C9_missing_credentials_fail_before_upload (env : UploadEnv)
    (s3 : S3Env) (errCode : Option Nat)
    (describeRaw packagePath checksumPath : List Char)
    (hcred : env.awsAccessKeyId = none ∨ env.awsSecretAccessKey = none) :
    ∃ c, uploadRun env s3 errCode describeRaw packagePath checksumPath =
        (Except.error (UploadFailure.exited c), []) ∧ 0 < c := by
  refine ⟨jsOr errCode 1, ?_, jsOr_one_pos errCode⟩
  have hval : validateUpload env errCode = Except.error (jsOr errCode 1) := by
    rcases hcred with h | h
    · cases env.pkgExists <;> cases env.chkExists <;>
        simp [validateUpload, h, truthyStr]
    · cases env.pkgExists <;> cases env.chkExists <;>
        cases htr : truthyStr env.awsAccessKeyId <;>
          simp [validateUpload, h, htr, truthyStr]
  simp [uploadRun, hval]

/-- Witness for C9: access key id unset, everything else in place. -/
theorem C9_witness :
    ∃ c, uploadRun ⟨true, true, none, some (chars ("sk"))⟩
        ⟨fun _ => true, fun _ => true⟩ none (chars ("4.2.5"))
        (chars ("target/pkg.tar.gz")) (chars ("target/pkg.tar.gz.sha1.txt")) =
        (Except.error (UploadFailure.exited c), []) ∧ 0 < c :=
  C9_missing_credentials_fail_before_upload ⟨true, true, none, some (chars ("sk"))⟩
    ⟨fun _ => true, fun _ => true⟩ none (chars ("4.2.5"))
    (chars ("target/pkg.tar.gz")) (chars ("target/pkg.tar.gz.sha1.txt"))
    (Or.inl rfl)


theorem findSplit_eq_some {pat : List Char} :
    ∀ {s a b : List Char}, findSplit pat s = some (a, b) → s = a ++ (pat ++ b)
  | [], a, b, h => by
    unfold findSplit at h
    split at h
    · rename_i hp
      obtain ⟨rfl, rfl⟩ : a = [] ∧ b = [] := by
        simpa using h.symm
      have : pat = [] := List.prefix_nil.mp (List.isPrefixOf_iff_prefix.mp hp)
      simp [this]
    · exact absurd h (by simp)
  | c :: rest, a, b, h => by
    rw [findSplit] at h
    split at h
    · rename_i hp
      obtain ⟨rfl, rfl⟩ : a = [] ∧ b = (c :: rest).drop pat.length := by
        constructor
        · exact (congrArg Prod.fst (Option.some.inj h)).symm
        · exact (congrArg Prod.snd (Option.some.inj h)).symm
      obtain ⟨t, ht⟩ := List.isPrefixOf_iff_prefix.mp hp
      rw [← ht, List.nil_append, List.drop_left]
    · rename_i hp
      rcases hfs : findSplit pat rest with _ | p
      · rw [hfs] at h
        exact absurd h (by simp)
      · rw [hfs] at h
        have h' : some (c :: p.1, p.2) = some (a, b) := h
        obtain ⟨ha, hb⟩ : c :: p.1 = a ∧ p.2 = b := by
          constructor
          · exact congrArg Prod.fst (Option.some.inj h')
          · exact congrArg Prod.snd (Option.some.inj h')
        have hind := findSplit_eq_some (s := rest) (a := p.1) (b := p.2) (by rw [hfs])
        rw [← ha, ← hb, List.cons_append, ← hind]

theorem replaceFirst_self (s pat : List Char) : replaceFirst s pat pat = s := by
  unfold replaceFirst
  rcases hfs : findSplit pat s with _ | ⟨a, b⟩
  · rfl
  · show a ++ pat ++ b = s
    rw [List.append_assoc]
    exact (findSplit_eq_some hfs).symm

theorem findSplit_isSome_of_append (pat : List Char) :
    ∀ (a b : List Char), (findSplit pat (a ++ (pat ++ b))).isSome = true
  | [], b => by
    rw [List.nil_append]
    have hp : pat.isPrefixOf (pat ++ b) = true :=
      List.isPrefixOf_iff_prefix.mpr (List.prefix_append pat b)
    cases hpb : pat ++ b with
    | nil =>
      have hpe : pat = [] := by
        rcases List.append_eq_nil.mp hpb with ⟨h1, _⟩
        exact h1
      subst hpe
      rfl
    | cons c rest =>
      rw [hpb] at hp
      rw [findSplit, if_pos hp]
      rfl
  | c :: a', b => by
    rw [List.cons_append, findSplit]
    split
    · rfl
    · have hrec := findSplit_isSome_of_append pat a' b
      rcases hfs : findSplit pat (a' ++ (pat ++ b)) with _ | p
      · rw [hfs] at hrec
        exact absurd hrec (by simp)
      · rfl

theorem containsStr_append (a pat b : List Char) :
    containsStr (a ++ (pat ++ b)) pat = true :=
  findSplit_isSome_of_append pat a b

theorem containsStr_false_replaceFirst {s pat : List Char} (r : List Char)
    (h : containsStr s pat = false) : replaceFirst s pat r = s := by
  unfold replaceFirst
  rcases hfs : findSplit pat s with _ | ⟨a, b⟩
  · rfl
  · rw [containsStr, hfs] at h
    exact absurd h (by simp)

theorem prefix_iff_getElem {pat : List Char} :
    ∀ {t : List Char}, pat <+: t ↔ ∀ k, k < pat.length → t[k]? = pat[k]? := by
  induction pat with
  | nil => intro t; simp
  | cons x xs ih =>
    intro t
    cases t with
    | nil =>
      simp only [List.prefix_nil]
      constructor
      · intro h
        exact absurd h (by simp)
      · intro h
        have h0 := h 0 (by simp)
        simp at h0
    | cons y ys =>
      rw [List.cons_prefix_cons]
      constructor
      · rintro ⟨rfl, hp⟩ k hk
        cases k with
        | zero => simp
        | succ j =>
          simpa using (ih.mp hp) j (by simpa using hk)
      · intro h
        have h0 := h 0 (by simp)
        simp only [List.getElem?_cons_zero, Option.some.injEq] at h0
        refine ⟨h0.symm, ih.mpr ?_⟩
        intro j hj
        simpa using h (j + 1) (by simpa using hj)

theorem matchAt_iff {s pat : List Char} {i : Nat} :
    matchAt s pat i = true ↔
      ∀ k, k < pat.length → s[i + k]? = pat[k]? := by
  rw [matchAt, List.isPrefixOf_iff_prefix, prefix_iff_getElem]
  constructor <;> intro h k hk <;> have hh := h k hk
  · rw [List.getElem?_drop] at hh
    exact hh
  · rw [List.getElem?_drop]
    exact hh

theorem matchAt_lt_length {s pat : List Char} {i : Nat} (hp : pat ≠ [])
    (h : matchAt s pat i = true) : i < s.length := by
  obtain ⟨c, cs, rfl⟩ : ∃ c cs, pat = c :: cs := by
    cases pat with
    | nil => exact absurd rfl hp
    | cons c cs => exact ⟨c, cs, rfl⟩
  have h0 := matchAt_iff.mp h 0 (by simp)
  simp only [Nat.add_zero, List.getElem?_cons_zero] at h0
  by_contra hlen
  rw [List.getElem?_eq_none (by omega)] at h0
  exact absurd h0 (by simp)

theorem countP_eq_one_unique {l : List Nat} {p : Nat → Bool} {i j : Nat}
    (h : l.countP p = 1) (hi : i ∈ l) (hj : j ∈ l)
    (hpi : p i = true) (hpj : p j = true) : i = j := by
  rw [List.countP_eq_length_filter] at h
  obtain ⟨x, hx⟩ := List.length_eq_one.mp h
  have h1 : i ∈ l.filter p := List.mem_filter.mpr ⟨hi, hpi⟩
  have h2 : j ∈ l.filter p := List.mem_filter.mpr ⟨hj, hpj⟩
  rw [hx, List.mem_singleton] at h1 h2
  rw [h1, h2]

theorem occCount_one_unique {s pat : List Char} {i j : Nat} (hp : pat ≠ [])
    (h : occCount s pat = 1) (hi : matchAt s pat i = true)
    (hj : matchAt s pat j = true) : i = j :=
  countP_eq_one_unique h
    (List.mem_range.mpr (by have := matchAt_lt_length hp hi; omega))
    (List.mem_range.mpr (by have := matchAt_lt_length hp hj; omega))
    hi hj

theorem findSplit_none_no_match {pat : List Char} :
    ∀ {s : List Char}, findSplit pat s = none → ∀ i, matchAt s pat i = false
  | [], hnone, i => by
    rw [findSplit] at hnone
    split at hnone
    · exact absurd hnone (by simp)
    · rename_i hp
      rw [matchAt, List.drop_nil]
      cases h : pat.isPrefixOf ([] : List Char)
      · rfl
      · exact absurd h hp
  | c :: rest, hnone, i => by
    rw [findSplit] at hnone
    split at hnone
    · exact absurd hnone (by simp)
    · rename_i hp
      have hrest : findSplit pat rest = none := by
        rcases hfs : findSplit pat rest with _ | p
        · rfl
        · rw [hfs] at hnone
          exact absurd hnone (by simp)
      cases i with
      | zero =>
        rw [matchAt, List.drop_zero]
        cases h : pat.isPrefixOf (c :: rest)
        · rfl
        · exact absurd h hp
      | succ j =>
        rw [matchAt]
        rw [show (c :: rest).drop (j + 1) = rest.drop j from rfl]
        exact findSplit_none_no_match hrest j

theorem containsStr_true_iff {s pat : List Char} :
    containsStr s pat = true ↔ ∃ i, matchAt s pat i = true := by
  constructor
  · intro h
    rw [containsStr] at h
    rcases hfs : findSplit pat s with _ | p
    · rw [hfs] at h
      exact absurd h (by simp)
    · refine ⟨p.1.length, ?_⟩
      have hdec := findSplit_eq_some (a := p.1) (b := p.2) (by rw [hfs])
      rw [matchAt, hdec, List.drop_left]
      exact List.isPrefixOf_iff_prefix.mpr (List.prefix_append pat p.2)
  · rintro ⟨i, hi⟩
    rcases hfs : findSplit pat s with _ | p
    · rw [findSplit_none_no_match hfs i] at hi
      exact absurd hi (by simp)
    · rw [containsStr, hfs]
      rfl

/-- The substring `"version": "<v>"` (the version entry without the
surrounding layout of the sed pattern). -/
def vsnStr (v : List Char) : List Char :=
  chars ("\"version\": \"") ++ v ++ chars ("\"")

/-- The exact sed pattern for version `1.0.0`. -/
def pat10 : List Char := versionPattern (chars ("1.0.0"))

/-- The exact sed pattern for version `1.1.0`. -/
def pat11 : List Char := versionPattern (chars ("1.1.0"))

/-- The version entry for `1.0.0`. -/
def vsn10 : List Char := vsnStr (chars ("1.0.0"))

/-- The version entry for `1.1.0`. -/
def vsn11 : List Char := vsnStr (chars ("1.1.0"))

/-- The two sed patterns agree everywhere except at index 17 (the differing
version digit), so any occurrence of the old version entry that does not
cover that index exists in the rewritten file iff it existed in the original. -/
theorem newOld_agree (A B : List Char) (k : Nat) (hk : k ≠ A.length + 17) :
    (A ++ (pat11 ++ B))[k]? = (A ++ (pat10 ++ B))[k]? := by
  rcases Nat.lt_or_ge k A.length with h | h
  · rw [List.getElem?_append_left h, List.getElem?_append_left h]
  · rw [List.getElem?_append_right h, List.getElem?_append_right h]
    have hd : k - A.length ≠ 17 := by omega
    rcases Nat.lt_or_ge (k - A.length) 23 with h2 | h2
    · rw [List.getElem?_append_left
          (show k - A.length < pat11.length from by
            rw [show pat11.length = 23 from by decide]; omega),
        List.getElem?_append_left
          (show k - A.length < pat10.length from by
            rw [show pat10.length = 23 from by decide]; omega)]
      exact (by decide : ∀ d, d < 23 → d ≠ 17 → pat11[d]? = pat10[d]?) _ h2 hd
    · rw [List.getElem?_append_right
          (show pat11.length ≤ k - A.length from by
            rw [show pat11.length = 23 from by decide]; omega),
        List.getElem?_append_right
          (show pat10.length ≤ k - A.length from by
            rw [show pat10.length = 23 from by decide]; omega)]
      rw [show pat11.length = 23 from by decide,
        show pat10.length = 23 from by decide]

/-- Core removal lemma: if the old version entry occurred exactly once in the
original manifest (necessarily inside the matched sed pattern), it does not
occur anywhere in the rewritten manifest. -/
theorem no_vsn10_in_new (A B : List Char)
    (hocc : occCount (A ++ (pat10 ++ B)) vsn10 = 1) :
    ∀ i, matchAt (A ++ (pat11 ++ B)) vsn10 i = false := by
  intro i
  cases hmt : matchAt (A ++ (pat11 ++ B)) vsn10 i with
  | false => rfl
  | true =>
    exfalso
    have hforall : ∀ k, k < 18 → (A ++ (pat11 ++ B))[i + k]? = vsn10[k]? := by
      intro k hk
      exact matchAt_iff.mp hmt k
        (by rw [show vsn10.length = 18 from by decide]; omega)
    have hold3 : matchAt (A ++ (pat10 ++ B)) vsn10 (A.length + 3) = true := by
      rw [matchAt]
      have hsplitp : pat10 ++ B =
          chars ("\n  ") ++ ((vsn10 ++ chars (",\n")) ++ B) := by
        rw [show pat10 = chars ("\n  ") ++ (vsn10 ++ chars (",\n")) from by decide,
          List.append_assoc]
      have hdrop : (A ++ (pat10 ++ B)).drop (A.length + 3) =
          vsn10 ++ (chars (",\n") ++ B) := by
        rw [← List.drop_drop, List.drop_left, hsplitp,
          show (3 : Nat) = (chars ("\n  ")).length from by decide,
          List.drop_left, List.append_assoc]
      rw [hdrop]
      exact List.isPrefixOf_iff_prefix.mpr (List.prefix_append _ _)
    have huniq : ∀ j, matchAt (A ++ (pat10 ++ B)) vsn10 j = true →
        j = A.length + 3 :=
      fun j hj => occCount_one_unique (by decide) hocc hj hold3
    by_cases hcase : i + 18 ≤ A.length + 17 ∨ A.length + 17 < i
    · have hnocover : ∀ k, k < 18 → i + k ≠ A.length + 17 := by
        intro k hk
        rcases hcase with hc | hc <;> omega
      have hiold : matchAt (A ++ (pat10 ++ B)) vsn10 i = true := by
        rw [matchAt_iff]
        intro k hk
        rw [show vsn10.length = 18 from by decide] at hk
        rw [← newOld_agree A B (i + k) (hnocover k hk)]
        exact hforall k hk
      have hi3 := huniq i hiold
      rcases hcase with hc | hc <;> omega
    · push_neg at hcase
      obtain ⟨h1, h2⟩ := hcase
      have hd : A.length + 17 - i < 18 := by omega
      have h17 := hforall (A.length + 17 - i) hd
      rw [show i + (A.length + 17 - i) = A.length + 17 from by omega] at h17
      have hnew17 : (A ++ (pat11 ++ B))[A.length + 17]? = some '1' := by
        rw [List.getElem?_append_right (by omega),
          show A.length + 17 - A.length = 17 from by omega,
          List.getElem?_append_left (show 17 < pat11.length from by decide)]
        decide
      rw [hnew17] at h17
      have hd12 : A.length + 17 - i = 12 :=
        (by decide : ∀ d, d < 18 → vsn10[d]? = some '1' → d = 12) _ hd h17.symm
      have h0 := hforall 0 (by omega)
      rw [Nat.add_zero, show i = A.length + 5 from by omega] at h0
      have hnew5 : (A ++ (pat11 ++ B))[A.length + 5]? = some 'e' := by
        rw [List.getElem?_append_right (by omega),
          show A.length + 5 - A.length = 5 from by omega,
          List.getElem?_append_left (show 5 < pat11.length from by decide)]
        decide
      rw [hnew5, show vsn10[0]? = some '"' from by decide] at h0
      exact absurd h0 (by decide)

/-- C4 counterexample: the manifest `\x7b"version": "1.0.0"\x7d` contains
`"version": "1.0.0"`, yet the rewrite to `1.1.0` exits with the error code
and leaves the file unchanged — still containing `1.0.0` and never containing
`1.1.0` — because the sed source text is the exact layout-sensitive pattern
`\n  "version": "1.0.0",\n`, which this formatting does not match. -/
theorem C4_counterexample :
    containsStr (chars ("\x7b\"version\": \"1.0.0\"\x7d")) vsn10 = true ∧
    (bumpPackageJsonVersion (chars ("\x7b\"version\": \"1.0.0\"\x7d"))
        (chars ("1.0.0")) (chars ("1.1.0")) 7).result = Except.error 7 ∧
    (bumpPackageJsonVersion (chars ("\x7b\"version\": \"1.0.0\"\x7d"))
        (chars ("1.0.0")) (chars ("1.1.0")) 7).file =
      chars ("\x7b\"version\": \"1.0.0\"\x7d") ∧
    containsStr (bumpPackageJsonVersion (chars ("\x7b\"version\": \"1.0.0\"\x7d"))
        (chars ("1.0.0")) (chars ("1.1.0")) 7).file vsn11 = false :=
  ⟨by decide, rfl, rfl, by decide⟩

/-- C4 (amended): when the manifest contains the exact sed pattern
`\n  "version": "1.0.0",\n` and the substring `"version": "1.0.0"` occurs in
it exactly once, the rewrite to `1.1.0` succeeds and the resulting file
contains `"version": "1.1.0"` and no longer contains `"version": "1.0.0"`;
and whenever the exact pattern is absent, the operation exits with the error
code, leaving the file unmodified. -/
theorem C4_amended_bump (content : List Char) (errCode : Nat) :
    (containsStr content pat10 = true →
      occCount content vsn10 = 1 →
      (bumpPackageJsonVersion content (chars ("1.0.0")) (chars ("1.1.0"))
          errCode).result = Except.ok () ∧
      containsStr (bumpPackageJsonVersion content (chars ("1.0.0"))
          (chars ("1.1.0")) errCode).file vsn11 = true ∧
      containsStr (bumpPackageJsonVersion content (chars ("1.0.0"))
          (chars ("1.1.0")) errCode).file vsn10 = false) ∧
    (containsStr content pat10 = false →
      (bumpPackageJsonVersion content (chars ("1.0.0")) (chars ("1.1.0"))
          errCode).result = Except.error errCode ∧
      (bumpPackageJsonVersion content (chars ("1.0.0")) (chars ("1.1.0"))
          errCode).file = content) := by
  constructor
  · intro hc hocc
    rw [containsStr] at hc
    rcases hfs : findSplit pat10 content with _ | ⟨a, b⟩
    · rw [hfs] at hc
      exact absurd hc (by simp)
    · have hdec : content = a ++ (pat10 ++ b) := findSplit_eq_some hfs
      have hCB : replaceFirst content (chars ("\x7d\"")) (chars ("\x7d\"")) =
          content := replaceFirst_self content (chars ("\x7d\""))
      have hCA : replaceFirst content pat10 pat11 = a ++ (pat11 ++ b) := by
        rw [replaceFirst, hfs]
        exact List.append_assoc a pat11 b
      have hneq : ¬(content = a ++ (pat11 ++ b)) := by
        rw [hdec]
        intro h
        have h1 : pat10 ++ b = pat11 ++ b := List.append_cancel_left h
        have h2 : pat10 = pat11 := List.append_cancel_right h1
        exact absurd h2 (by decide)
      have hbump : bumpPackageJsonVersion content (chars ("1.0.0"))
          (chars ("1.1.0")) errCode = ⟨Except.ok (), a ++ (pat11 ++ b)⟩ := by
        unfold bumpPackageJsonVersion
        rw [show versionPattern (chars ("1.0.0")) = pat10 from rfl,
          show versionPattern (chars ("1.1.0")) = pat11 from rfl, hCB]
        simp only [hCA]
        rw [if_neg hneq, containsStr_append]
        simp
      rw [hbump]
      refine ⟨rfl, ?_, ?_⟩
      · have hfile : a ++ (pat11 ++ b) =
            (a ++ chars ("\n  ")) ++ (vsn11 ++ (chars (",\n") ++ b)) := by
          rw [show pat11 = chars ("\n  ") ++ (vsn11 ++ chars (",\n")) from by decide]
          simp [List.append_assoc]
        rw [show (BumpResult.mk (Except.ok ()) (a ++ (pat11 ++ b))).file =
          a ++ (pat11 ++ b) from rfl, hfile]
        exact containsStr_append _ _ _
      · have hocc' : occCount (a ++ (pat10 ++ b)) vsn10 = 1 := hdec ▸ hocc
        have hnone := no_vsn10_in_new a b hocc'
        cases hcc : containsStr (a ++ (pat11 ++ b)) vsn10 with
        | false => rfl
        | true =>
          obtain ⟨i, hi⟩ := containsStr_true_iff.mp hcc
          rw [hnone i] at hi
          exact absurd hi (by simp)
  · intro hc
    have hCB : replaceFirst content (chars ("\x7d\"")) (chars ("\x7d\"")) =
        content := replaceFirst_self content (chars ("\x7d\""))
    have hCA : replaceFirst content pat10 pat11 = content :=
      containsStr_false_replaceFirst pat11 hc
    have hbump : bumpPackageJsonVersion content (chars ("1.0.0"))
        (chars ("1.1.0")) errCode = ⟨Except.error errCode, content⟩ := by
      unfold bumpPackageJsonVersion
      rw [show versionPattern (chars ("1.0.0")) = pat10 from rfl,
        show versionPattern (chars ("1.1.0")) = pat11 from rfl, hCB]
      simp only [hCA]
      simp
    rw [hbump]
    exact ⟨rfl, rfl⟩

/-- Witness for the amended C4 at a concrete well-formed manifest. -/
theorem C4_amended_witness :
    containsStr
        (chars ("\x7b\n  \"name\": \"Hilary\",\n  \"version\": \"1.0.0\",\n  \"x\": 1\n\x7d\n"))
        pat10 = true ∧
    occCount
        (chars ("\x7b\n  \"name\": \"Hilary\",\n  \"version\": \"1.0.0\",\n  \"x\": 1\n\x7d\n"))
        vsn10 = 1 ∧
    ((bumpPackageJsonVersion
        (chars ("\x7b\n  \"name\": \"Hilary\",\n  \"version\": \"1.0.0\",\n  \"x\": 1\n\x7d\n"))
        (chars ("1.0.0")) (chars ("1.1.0")) 9).result = Except.ok () ∧
      containsStr (bumpPackageJsonVersion
        (chars ("\x7b\n  \"name\": \"Hilary\",\n  \"version\": \"1.0.0\",\n  \"x\": 1\n\x7d\n"))
        (chars ("1.0.0")) (chars ("1.1.0")) 9).file vsn11 = true ∧
      containsStr (bumpPackageJsonVersion
        (chars ("\x7b\n  \"name\": \"Hilary\",\n  \"version\": \"1.0.0\",\n  \"x\": 1\n\x7d\n"))
        (chars ("1.0.0")) (chars ("1.1.0")) 9).file vsn10 = false) :=
  ⟨by decide, by decide,
    (C4_amended_bump
        (chars ("\x7b\n  \"name\": \"Hilary\",\n  \"version\": \"1.0.0\",\n  \"x\": 1\n\x7d\n"))
        9).1 (by decide) (by decide)⟩
